import Mathlib

/-!
Verification development for the telegraf repository slice: the accumulator,
the influx line-protocol parser (batch and streaming), the enum processor and
the BigQuery output.  Pure functions are embedded as executable Lean
definitions; machine integers are Nat/Int with explicit range checks where the
source checks ranges; fallible operations return Except.
-/

/-- A field value of a metric.  Telegraf field values are one of signed 64-bit
integer, unsigned 64-bit integer, 64-bit float, boolean, or string.  Floats are
kept as their raw decimal text since no claim depends on float arithmetic. -/
inductive FieldValue where
  | fInt (v : Int)
  | fUInt (v : Nat)
  | fFloat (raw : String)
  | fBool (v : Bool)
  | fStr (v : String)
deriving DecidableEq, Repr

/-- A metric: name, ordered tag list, ordered field list, timestamp in
nanoseconds since the zero instant. -/
structure Metric where
  name : String
  tags : List (String × String)
  fields : List (String × FieldValue)
  time : Int
deriving DecidableEq, Repr

/-- A parse error: 1-based line and column position plus a human-readable
cause, mirroring lineprotocol.DecodeError. -/
structure PErr where
  line : Nat
  col : Nat
  msg : String
deriving DecidableEq, Repr

/-- The characters that a backslash escapes in measurement names, tag keys,
tag values and field keys: space, comma, equals. -/
def escapable (c : Char) : Bool :=
  c == ' ' || c == ',' || c == '='

/-- Worker for takeEsc.  The pending flag records that a backslash has been
read whose treatment depends on the next character: an escapable character is
emitted alone, a backslash restarts an escape, anything else is emitted after
the literal backslash. -/
def takeEscGo (stop : List Char) : Bool → List Char → List Char × List Char
  | pending, [] => if pending then (['\\'], []) else ([], [])
  | pending, c :: rest =>
    if pending then
      if escapable c then
        (c :: (takeEscGo stop false rest).1, (takeEscGo stop false rest).2)
      else if c == '\\' then
        ('\\' :: (takeEscGo stop true rest).1, (takeEscGo stop true rest).2)
      else
        ('\\' :: c :: (takeEscGo stop false rest).1, (takeEscGo stop false rest).2)
    else
      if c == '\\' then takeEscGo stop true rest
      else if c ∈ stop then ([], c :: rest)
      else
        (c :: (takeEscGo stop false rest).1, (takeEscGo stop false rest).2)

/-- Modelled from the spec: the escape-aware scanner of the vendored
line-protocol decoder (the decoder itself is not part of this repository
slice).  Scans up to an unescaped stop character, decoding backslash escapes
of space, comma and equals; a backslash before any other character is passed
through literally, backslash included.  Returns the decoded text and the
unconsumed remainder (which begins with a stop character if nonempty). -/
def takeEsc (stop : List Char) (l : List Char) : List Char × List Char :=
  takeEscGo stop false l

/-- Worker for scanQuoted, with a pending-backslash flag as in takeEscGo. -/
def scanQuotedGo : Bool → List Char → Option (List Char × List Char)
  | _, [] => none
  | pending, c :: rest =>
    if pending then
      if c == '"' || c == '\\' then
        match scanQuotedGo false rest with
        | none => none
        | some (d, r) => some (c :: d, r)
      else
        match scanQuotedGo false rest with
        | none => none
        | some (d, r) => some ('\\' :: c :: d, r)
    else
      if c == '\\' then scanQuotedGo true rest
      else if c == '"' then some ([], rest)
      else
        match scanQuotedGo false rest with
        | none => none
        | some (d, r) => some (c :: d, r)

/-- Modelled from the spec: the double-quoted string scanner of the vendored
line-protocol decoder.  Inside quotes a backslash escapes a double quote or
another backslash; other backslash sequences pass through.  Returns the
decoded content and the remainder after the closing quote, or none when the
string is unterminated. -/
def scanQuoted (l : List Char) : Option (List Char × List Char) :=
  scanQuotedGo false l

def isDigit (c : Char) : Bool :=
  48 ≤ c.toNat && c.toNat ≤ 57

def digitsToNat (l : List Char) : Nat :=
  l.foldl (fun n c => 10 * n + (c.toNat - 48)) 0

def isDigits (l : List Char) : Bool :=
  !l.isEmpty && l.all isDigit

def dropSign : List Char → List Char
  | [] => []
  | c :: rest => if c == '-' || c == '+' then rest else c :: rest

/-- Exponent-part check of a decimal float literal: either nothing remains or
an exponent marker followed by an optionally signed digit run. -/
def checkExp : List Char → Bool
  | [] => true
  | c :: rest =>
    if c == 'e' || c == 'E' then isDigits (dropSign rest)
    else false

/-- Syntax check of an unsigned decimal float body: a digit run, an optional
fraction, an optional exponent. -/
def checkFloatBody (l : List Char) : Bool :=
  let intPart := l.takeWhile isDigit
  let rest := l.dropWhile isDigit
  if intPart.isEmpty then false
  else
    match rest with
    | [] => true
    | c :: r2 =>
      if c == '.' then
        let frac := r2.takeWhile isDigit
        let r3 := r2.dropWhile isDigit
        if frac.isEmpty then false else checkExp r3
      else checkExp (c :: r2)

def checkFloat (l : List Char) : Bool :=
  checkFloatBody (dropSign l)

def outOfRangeMsg (key : String) : String :=
  "cannot parse value for field key \"" ++ key ++ "\": line-protocol value out of range"

def invalidFloatMsg (key : String) : String :=
  "cannot parse value for field key \"" ++ key ++ "\": invalid float value syntax"

def invalidIntMsg (key : String) : String :=
  "cannot parse value for field key \"" ++ key ++ "\": invalid int value syntax"

def invalidUintMsg (key : String) : String :=
  "cannot parse value for field key \"" ++ key ++ "\": invalid uint value syntax"

/-- Signed 64-bit integer body classification with range check: the decoded
value must fit the signed 64-bit range, otherwise the decode fails with the
out-of-range cause (no wraparound). -/
def classifyInt (lineNo col : Nat) (key : String) (body : List Char) : Except PErr FieldValue :=
  match body with
  | [] => .error ⟨lineNo, col, invalidIntMsg key⟩
  | b :: bs =>
    if b == '-' then
      if isDigits bs then
        let n := digitsToNat bs
        if n ≤ 9223372036854775808 then .ok (.fInt (-(n : Int)))
        else .error ⟨lineNo, col, outOfRangeMsg key⟩
      else .error ⟨lineNo, col, invalidIntMsg key⟩
    else
      if isDigits (b :: bs) then
        let n := digitsToNat (b :: bs)
        if n ≤ 9223372036854775807 then .ok (.fInt (n : Int))
        else .error ⟨lineNo, col, outOfRangeMsg key⟩
      else .error ⟨lineNo, col, invalidIntMsg key⟩

/-- Modelled from the spec: field-value typing of the vendored line-protocol
decoder.  A trailing i marks a signed 64-bit integer, a trailing u an unsigned
64-bit integer, no suffix a float, true/false a boolean; out-of-range integer
and unsigned literals are a decode error positioned at the value start. -/
def classifyValue (lineNo col : Nat) (key : String) (tok : List Char) : Except PErr FieldValue :=
  let s := String.mk tok
  if s == "true" then .ok (.fBool true)
  else if s == "false" then .ok (.fBool false)
  else
    match tok.getLast? with
    | none => .error ⟨lineNo, col, "field value has unrecognized type"⟩
    | some last =>
      if last == 'i' then classifyInt lineNo col key tok.dropLast
      else if last == 'u' then
        let body := tok.dropLast
        if isDigits body then
          let n := digitsToNat body
          if n ≤ 18446744073709551615 then .ok (.fUInt n)
          else .error ⟨lineNo, col, outOfRangeMsg key⟩
        else .error ⟨lineNo, col, invalidUintMsg key⟩
      else
        match tok with
        | [] => .error ⟨lineNo, col, "field value has unrecognized type"⟩
        | c :: _ =>
          if c == '-' || c == '+' || c == '.' || isDigit c then
            if checkFloat tok then .ok (.fFloat (String.mk tok))
            else .error ⟨lineNo, col, invalidFloatMsg key⟩
          else .error ⟨lineNo, col, "field value has unrecognized type"⟩

/-- The parser configuration: the timestamp-precision multiplier (ns per
timestamp unit) and the injectable default time used when a line carries no
timestamp. -/
structure Parser where
  mult : Nat
  defaultTime : Int
deriving Repr

/-- Modelled from the spec: the field-set section of a line.  Consumes
comma-separated key=value pairs; returns the fields plus the remainder after
the separating space (the timestamp section) or none at end of line.  The
first argument is fuel, always called with more fuel than characters. -/
def parseFields (lineNo : Nat) : Nat → Nat → List Char → List (String × FieldValue) →
    Except PErr (List (String × FieldValue) × Option (List Char))
  | 0, col, _, _ => .error ⟨lineNo, col, "internal: fuel exhausted"⟩
  | Nat.succ fuel, col, l, acc =>
    let (keyD, r1) := takeEsc ['=', ' ', ','] l
    let key := String.mk keyD
    let colEq := col + (l.length - r1.length)
    if keyD.isEmpty then .error ⟨lineNo, col, "empty field key"⟩
    else
      match r1 with
      | [] => .error ⟨lineNo, colEq, "expected field separator"⟩
      | c :: r2 =>
        if c == '=' then
          let colV := colEq + 1
          if r2.head? == some '"' then
            match scanQuoted r2.tail with
            | none => .error ⟨lineNo, colV, "expected closing quote"⟩
            | some (d, r3) =>
              let colN := colV + (r2.length - r3.length)
              match r3 with
              | [] => .ok (acc ++ [(key, .fStr (String.mk d))], none)
              | c2 :: r4 =>
                if c2 == ',' then parseFields lineNo fuel (colN + 1) r4 (acc ++ [(key, .fStr (String.mk d))])
                else if c2 == ' ' then .ok (acc ++ [(key, .fStr (String.mk d))], some r4)
                else .error ⟨lineNo, colN, "unexpected character after field value"⟩
          else
            let tokL := r2.takeWhile (fun ch => !(ch == ' ' || ch == ','))
            let r3 := r2.dropWhile (fun ch => !(ch == ' ' || ch == ','))
            match classifyValue lineNo colV key tokL with
            | .error e => .error e
            | .ok v =>
              let colN := colV + tokL.length
              match r3 with
              | [] => .ok (acc ++ [(key, v)], none)
              | c2 :: r4 =>
                if c2 == ',' then parseFields lineNo fuel (colN + 1) r4 (acc ++ [(key, v)])
                else if c2 == ' ' then .ok (acc ++ [(key, v)], some r4)
                else .error ⟨lineNo, colN, "unexpected character after field value"⟩
        else .error ⟨lineNo, colEq, "expected field separator"⟩

/-- Modelled from the spec: the tag-set section of a line.  Consumes
comma-separated key=value tag pairs after the measurement; returns the tags,
the remainder after the separating space (the field section) and the column at
which that remainder starts. -/
def parseTags (lineNo : Nat) : Nat → Nat → List Char → List (String × String) →
    Except PErr (List (String × String) × List Char × Nat)
  | 0, col, _, _ => .error ⟨lineNo, col, "internal: fuel exhausted"⟩
  | Nat.succ fuel, col, l, acc =>
    let (keyD, r1) := takeEsc ['=', ' ', ','] l
    let key := String.mk keyD
    let colEq := col + (l.length - r1.length)
    if keyD.isEmpty then .error ⟨lineNo, col, "empty tag name"⟩
    else
      match r1 with
      | [] => .error ⟨lineNo, colEq, "expected tag value after tag key \"" ++ key ++ "\", but none found"⟩
      | c :: r2 =>
        if c == '=' then
          let colV := colEq + 1
          let (valD, r3) := takeEsc [',', ' '] r2
          if valD.isEmpty then
            .error ⟨lineNo, colV, "expected tag value after tag key \"" ++ key ++ "\", but none found"⟩
          else
            let colN := colV + (r2.length - r3.length)
            match r3 with
            | [] => .error ⟨lineNo, colN, "expected field but none found"⟩
            | c2 :: r4 =>
              if c2 == ',' then parseTags lineNo fuel (colN + 1) r4 (acc ++ [(key, String.mk valD)])
              else .ok (acc ++ [(key, String.mk valD)], r4, colN + 1)
        else .error ⟨lineNo, colEq, "expected tag value after tag key \"" ++ key ++ "\", but none found"⟩

/-- Timestamp literal: an optionally negative decimal integer. -/
def parseTimestamp (l : List Char) : Option Int :=
  match l with
  | [] => none
  | c :: rest =>
    if c == '-' then
      if isDigits rest then some (-(digitsToNat rest : Int)) else none
    else if isDigits (c :: rest) then some ((digitsToNat (c :: rest) : Int)) else none

/-- Field section plus optional timestamp; builds the metric.  A line without
a timestamp uses the parser's injectable default time; an explicit timestamp
integer is interpreted in the configured precision unit (multiplied into
nanoseconds). -/
def finishFields (p : Parser) (lineNo : Nat) (name : String) (tags : List (String × String))
    (col : Nat) (l : List Char) : Except PErr Metric :=
  match parseFields lineNo (l.length + 1) col l [] with
  | .error e => .error e
  | .ok (fields, rest) =>
    match rest with
    | none => .ok ⟨name, tags, fields, p.defaultTime⟩
    | some ts =>
      match parseTimestamp ts with
      | none => .error ⟨lineNo, col, "invalid timestamp"⟩
      | some t => .ok ⟨name, tags, fields, (p.mult : Int) * t⟩

/-- Modelled from the spec: decoding of one line of line-protocol input
(measurement, optional tag set, field set, optional timestamp), reporting
1-based line/column positions on malformed input. -/
def parseLine (p : Parser) (lineNo : Nat) (l : List Char) : Except PErr Metric :=
  let (nameD, r1) := takeEsc [',', ' '] l
  let col1 := 1 + (l.length - r1.length)
  if nameD.isEmpty then .error ⟨lineNo, 1, "empty measurement name"⟩
  else
    match r1 with
    | [] => .error ⟨lineNo, col1, "empty tag name"⟩
    | c :: r2 =>
      if c == ',' then
        match parseTags lineNo (r2.length + 1) (col1 + 1) r2 [] with
        | .error e => .error e
        | .ok (tags, r3, col3) => finishFields p lineNo (String.mk nameD) tags col3 r3
      else finishFields p lineNo (String.mk nameD) [] (col1 + 1) r2

/-- Splits a character stream into lines at newline characters. -/
def splitLines : List Char → List (List Char)
  | [] => [[]]
  | c :: rest =>
    match splitLines rest with
    | [] => [[c]]
    | h :: t => if c == '\n' then [] :: h :: t else (c :: h) :: t

def numberLines (n : Nat) : List (List Char) → List (Nat × List Char)
  | [] => []
  | l :: rest => (n, l) :: numberLines (n + 1) rest

/-- Streaming decoding: one independent result per nonempty line; a malformed
line yields its own error and decoding continues with the following lines. -/
def lineResults (p : Parser) : List (Nat × List Char) → List (Except PErr Metric)
  | [] => []
  | (n, l) :: rest =>
    if l.isEmpty then lineResults p rest
    else parseLine p n l :: lineResults p rest

/-- Whole-buffer decoding: decodes lines in order and stops at the first
malformed line, surfacing only that error. -/
def parseSeq (p : Parser) : List (Nat × List Char) → Except PErr (List Metric)
  | [] => .ok []
  | (n, l) :: rest =>
    if l.isEmpty then parseSeq p rest
    else
      match parseLine p n l with
      | .error e => .error e
      | .ok m =>
        match parseSeq p rest with
        | .error e => .error e
        | .ok ms => .ok (m :: ms)

/-- Whole-buffer entry point (Parser.Parse). -/
def parseString (p : Parser) (input : String) : Except PErr (List Metric) :=
  parseSeq p (numberLines 1 (splitLines input.data))

/-- Streaming entry point (successive StreamParser.Next results until EOF). -/
def streamResults (p : Parser) (input : String) : List (Except PErr Metric) :=
  lineResults p (numberLines 1 (splitLines input.data))

def firstErr : List (Except PErr Metric) → Option PErr
  | [] => none
  | r :: rest =>
    match r with
    | .error e => some e
    | .ok _ => firstErr rest

def okList : List (Except PErr Metric) → List Metric
  | [] => []
  | r :: rest =>
    match r with
    | .ok m => m :: okList rest
    | .error _ => okList rest

/-- Modelled from the spec: Parser.Init validation of the configured timestamp
precision.  Allowed precisions are nanosecond (also the unset default),
microsecond, millisecond and second; anything else is an invalid-precision
configuration error raised before any parsing occurs.  On success it returns
the nanoseconds-per-unit multiplier applied to parsed timestamp integers. -/
def initPrecision (d : Nat) : Except String Nat :=
  if d ≤ 1 then Except.ok 1
  else if d = 1000 then Except.ok 1000
  else if d = 1000000 then Except.ok 1000000
  else if d = 1000000000 then Except.ok 1000000000
  else Except.error "invalid time precision"

/-- Parser construction from a configured precision duration (in ns) and a
default time source. -/
def mkParser (precisionNs : Nat) (defTime : Int) : Except String Parser :=
  match initPrecision precisionNs with
  | .error e => .error e
  | .ok m => .ok ⟨m, defTime⟩

/-- The parser used by the concrete test vectors: nanosecond precision,
default time source pinned at unix second 42. -/
def testParser : Parser := ⟨1, 42000000000⟩

/-! ## Accumulator -/

/-- The accumulator's precision configuration: none is the unset default
(full nanosecond resolution), some d after SetPrecision with duration d (in
nanoseconds). -/
structure Accumulator where
  precision : Option Nat
deriving DecidableEq, Repr

def newAccumulator : Accumulator := ⟨none⟩

/-- Modelled from the spec: Accumulator.SetPrecision.  All subsequently
accumulated timestamps are normalized to this precision duration. -/
def setPrecision (a : Accumulator) (d : Nat) : Accumulator :=
  { a with precision := some d }

/-- Timestamp normalization applied by the accumulator, reconstructed from the
in-repository TestSetPrecision expectations, which pin the semantics of
Go's time.Round: the timestamp is rounded to the nearest multiple of the
precision duration since the zero instant, halfway values rounding up; an
unset or zero precision leaves the timestamp untouched. -/
def roundTimestamp : Option Nat → Nat → Nat
  | none, t => t
  | some d, t =>
    if d = 0 then t
    else if 2 * (t % d) < d then t - t % d
    else t - t % d + d

/-- Modelled from the spec: Accumulator.AddFields/AddCounter — constructs a
metric from the supplied name, fields, tags and timestamp, with the timestamp
normalized to the configured precision. -/
def addFields (a : Accumulator) (name : String) (fields : List (String × FieldValue))
    (tags : List (String × String)) (t : Nat) : Metric :=
  ⟨name, tags, fields, (roundTimestamp a.precision t : Int)⟩

/-- A delivery-tracking notification: tracking identifier plus outcome. -/
structure DeliveryInfo where
  id : Nat
  delivered : Bool
deriving DecidableEq, Repr

/-- Modelled from the spec: the tracking-capable accumulator variant returned
by WithTracking, with a bounded Delivered notification channel of the
caller-specified capacity (modelled as a list holding the currently readable
notifications) and a table of pending tracked groups. -/
structure TrackingAcc where
  base : Accumulator
  capacity : Nat
  deliveredCh : List DeliveryInfo
  nextId : Nat
  pending : List (Nat × Nat)
deriving DecidableEq, Repr

def withTracking (a : Accumulator) (cap : Nat) : TrackingAcc :=
  ⟨a, cap, [], 1, []⟩

/-- Delivery notification onto the bounded channel: appended when the channel
has room. -/
def notifyDelivered (acc : TrackingAcc) (info : DeliveryInfo) : TrackingAcc :=
  if acc.deliveredCh.length < acc.capacity then
    { acc with deliveredCh := acc.deliveredCh ++ [info] }
  else acc

/-- Modelled from the spec: AddTrackingMetricGroup.  Returns one tracking
identifier covering the whole group.  An empty group is delivered immediately:
the accumulator synthesizes a delivered notification without any metric
flowing through the pipeline; a nonempty group is registered as pending until
every member is acknowledged downstream. -/
def addTrackingMetricGroup (acc : TrackingAcc) (group : List Metric) : Nat × TrackingAcc :=
  let id := acc.nextId
  let acc1 := { acc with nextId := id + 1 }
  if group.isEmpty then (id, notifyDelivered acc1 ⟨id, true⟩)
  else (id, { acc1 with pending := acc1.pending ++ [(id, group.length)] })

/-! ## Enum processor -/

/-- Modelled from the spec: one Enum mapping entry — targeted field keys,
targeted tag keys (the single wildcard meaning every present key), the
value-mapping table, an optional default, and an optional destination key
(empty meaning overwrite the source key in place). -/
structure EnumMapping where
  fields : List String
  tags : List String
  dest : String
  defaultVal : Option FieldValue
  valueMappings : List (String × FieldValue)
deriving DecidableEq, Repr

def getField (m : Metric) (key : String) : Option FieldValue :=
  (m.fields.find? (fun kv => kv.1 == key)).map (·.2)

def getTag (m : Metric) (key : String) : Option String :=
  (m.tags.find? (fun kv => kv.1 == key)).map (·.2)

/-- Replace the value under a key, or append the pair when absent. -/
def setKV {α : Type} (l : List (String × α)) (key : String) (v : α) : List (String × α) :=
  if l.any (fun kv => kv.1 == key) then
    l.map (fun kv => if kv.1 == key then (key, v) else kv)
  else l ++ [(key, v)]

/-- The text form in which a field value is looked up in a mapping's value
table. -/
def fieldValueText : FieldValue → String
  | .fStr s => s
  | .fInt i => toString i
  | .fUInt n => toString n
  | .fFloat raw => raw
  | .fBool b => if b then "true" else "false"

def lookupVM (vm : List (String × FieldValue)) (s : String) : Option FieldValue :=
  (vm.find? (fun kv => kv.1 == s)).map (·.2)

/-- The key written by a mapping for source key src: the configured
destination, defaulting to src itself. -/
def destKey (mp : EnumMapping) (src : String) : String :=
  if mp.dest == "" then src else mp.dest

/-- Modelled from the spec: mapping resolution for one targeted field key.
A hit in the value table writes the mapped value to the destination key; a
miss with a configured default writes the default; a miss without a default
leaves the metric untouched for this key (in particular a distinct destination
key is not written at all). -/
def mapField (mp : EnumMapping) (m : Metric) (key : String) : Metric :=
  match getField m key with
  | none => m
  | some v =>
    match lookupVM mp.valueMappings (fieldValueText v) with
    | some nv => { m with fields := setKV m.fields (destKey mp key) nv }
    | none =>
      match mp.defaultVal with
      | some d => { m with fields := setKV m.fields (destKey mp key) d }
      | none => m

/-- Mapping resolution for one targeted tag key (tag values are text, so the
mapped value is written in its text form). -/
def mapTag (mp : EnumMapping) (m : Metric) (key : String) : Metric :=
  match getTag m key with
  | none => m
  | some v =>
    match lookupVM mp.valueMappings v with
    | some nv => { m with tags := setKV m.tags (destKey mp key) (fieldValueText nv) }
    | none =>
      match mp.defaultVal with
      | some d => { m with tags := setKV m.tags (destKey mp key) (fieldValueText d) }
      | none => m

def fieldTargets (mp : EnumMapping) (m : Metric) : List String :=
  if mp.fields.contains "*" then m.fields.map (·.1) else mp.fields

def tagTargets (mp : EnumMapping) (m : Metric) : List String :=
  if mp.tags.contains "*" then m.tags.map (·.1) else mp.tags

def applyMapping (m : Metric) (mp : EnumMapping) : Metric :=
  let m1 := (fieldTargets mp m).foldl (fun acc k => mapField mp acc k) m
  (tagTargets mp m1).foldl (fun acc k => mapTag mp acc k) m1

/-- Modelled from the spec: Enum.Apply on one metric — every configured
mapping applied in order; the processor always returns exactly one metric. -/
def applyEnum (mappings : List EnumMapping) (m : Metric) : List Metric :=
  [mappings.foldl applyMapping m]

/-! ## BigQuery output -/

/-- Log lines emitted by the BigQuery output, as structured entries. -/
inductive LogEntry where
  | hyphenWarning (metricName tableName : String)
  | insertError (metricName err : String)
  | compactWarn (err : String)
deriving DecidableEq, Repr

/-- The BigQuery plugin state relevant to Write: the hyphen substitute, the
compact-table setting, and the set of metric names already warned about. -/
structure BQState where
  replaceHyphenTo : String
  compactTable : String
  warned : List String
deriving DecidableEq, Repr

/-- Every hyphen of s replaced by sub; embeds strings.ReplaceAll(s, "-", sub). -/
def replaceHyphensL (subL : List Char) : List Char → List Char
  | [] => []
  | c :: rest =>
    if c = '-' then subL ++ replaceHyphensL subL rest
    else c :: replaceHyphensL subL rest

def replaceHyphens (sub : String) (s : String) : String :=
  String.mk (replaceHyphensL sub.data s.data)

/-- Embeds BigQuery.metricToTable: a name without hyphens is used verbatim;
otherwise every hyphen is replaced by the configured substitute, and the first
occurrence of the name logs one warning recommending the rename processor
while recording the name so later occurrences stay silent.  Returns the table
name, the updated state and the emitted log entries. -/
def metricToTable (b : BQState) (metricName : String) : String × BQState × List LogEntry :=
  if '-' ∈ metricName.data then
    let dhm := replaceHyphens b.replaceHyphenTo metricName
    if metricName ∈ b.warned then (dhm, b, [])
    else (dhm, { b with warned := b.warned ++ [metricName] },
          [LogEntry.hyphenWarning metricName dhm])
  else (metricName, b, [])

/-- The table name produced for a metric name, as a pure function of the
hyphen substitute. -/
def tableNameOf (sub : String) (metricName : String) : String :=
  if '-' ∈ metricName.data then replaceHyphens sub metricName else metricName

/-- Embeds BigQuery.insertToTable, with the backing store's per-table insert
outcome abstracted as an oracle from table name to optional error: an insert
failure is logged and not propagated. -/
def insertToTable (outcome : String → Option String) (b : BQState) (metricName : String) :
    BQState × List LogEntry :=
  let r := metricToTable b metricName
  match outcome r.1 with
  | some e => (r.2.1, r.2.2 ++ [LogEntry.insertError metricName e])
  | none => (r.2.1, r.2.2)

/-- The per-metric-name write path: one insert per distinct metric name (the
concurrent fan-out joined by Write is modelled sequentially; each group's
outcome is independent). -/
def writePerName (outcome : String → Option String) : BQState → List String → BQState × List LogEntry
  | b, [] => (b, [])
  | b, n :: rest =>
    let r := insertToTable outcome b n
    ((writePerName outcome r.1 rest).1, r.2 ++ (writePerName outcome r.1 rest).2)

def addUnique (l : List String) (s : String) : List String :=
  if s ∈ l then l else l ++ [s]

/-- The distinct metric names of a batch, first-seen order (the key set of
groupByMetricName). -/
def groupNames (metrics : List Metric) : List String :=
  metrics.foldl (fun acc m => addUnique acc m.name) []

/-- The row submitted for one metric in compact mode. -/
structure CompactRow where
  time : Int
  name : String
  tagsJson : String
  fieldsJson : String
deriving DecidableEq, Repr

/-- The JSON serializer dependency of compact mode, abstracted: tag-object and
field-object serialization each may fail per metric. -/
structure JsonM where
  tags : Metric → Except String String
  fields : Metric → Except String String

/-- Embeds BigQuery.newCompactValuesSaver: serializes the metric's tags and
fields to JSON text, wrapping serialization failures. -/
def newCompactValuesSaver (jm : JsonM) (m : Metric) : Except String CompactRow :=
  match jm.tags m with
  | .error e => .error ("serializing tags: " ++ e)
  | .ok tj =>
    match jm.fields m with
    | .error e => .error ("serializing fields: " ++ e)
    | .ok fj => .ok ⟨m.time, m.name, tj, fj⟩

/-- The loop of BigQuery.writeCompact: a metric whose serialization fails is
logged as a warning and excluded from the batch; the rest become rows in
order. -/
def compactRows (jm : JsonM) : List Metric → List CompactRow × List LogEntry
  | [] => ([], [])
  | m :: rest =>
    match newCompactValuesSaver jm m with
    | .error e => ((compactRows jm rest).1, LogEntry.compactWarn e :: (compactRows jm rest).2)
    | .ok r => (r :: (compactRows jm rest).1, (compactRows jm rest).2)

/-- Embeds BigQuery.writeCompact, with the backing store's batch insert
abstracted as an oracle from the submitted rows to an optional error, which is
returned to the caller verbatim. -/
def writeCompact (b : BQState) (jm : JsonM) (put : List CompactRow → Option String)
    (metrics : List Metric) : Except String Unit × BQState × List LogEntry :=
  match put (compactRows jm metrics).1 with
  | some e => (Except.error e, b, (compactRows jm metrics).2)
  | none => (Except.ok (), b, (compactRows jm metrics).2)

/-- Embeds BigQuery.Write: compact mode defers to writeCompact and propagates
its result; per-metric-name mode inserts each group and always returns ok. -/
def write (b : BQState) (outcome : String → Option String) (jm : JsonM)
    (put : List CompactRow → Option String) (metrics : List Metric) :
    Except String Unit × BQState × List LogEntry :=
  if b.compactTable ≠ "" then writeCompact b jm put metrics
  else
    (Except.ok (), (writePerName outcome b (groupNames metrics)).1,
     (writePerName outcome b (groupNames metrics)).2)

def isWarnFor (name : String) : LogEntry → Bool
  | .hyphenWarning n _ => n == name
  | _ => false

/-- The number of hyphen warnings for a given metric name in a log. -/
def warnCount (logs : List LogEntry) (name : String) : Nat :=
  (logs.filter (isWarnFor name)).length

/-- A sequence of metricToTable calls threading the plugin state, collecting
all emitted log entries. -/
def runTables : BQState → List String → BQState × List LogEntry
  | b, [] => (b, [])
  | b, n :: rest =>
    let r := metricToTable b n
    ((runTables r.2.1 rest).1, r.2.2 ++ (runTables r.2.1 rest).2)

/-! ## Concrete instances used by witnesses -/

/-- The metric built by the enum processor's test fixture. -/
def enumTestMetric : Metric :=
  ⟨"m1", [("tag", "tag_value"), ("duplicate_tag", "tag_value")],
   [("string_value", .fStr "test"), ("duplicate_string_value", .fStr "test"),
    ("int_value", .fInt 200), ("uint_value", .fUInt 500),
    ("float_value", .fFloat "3.14"), ("true_value", .fBool true)], 7⟩

/-- An enum mapping with a distinct destination key, no default, and a value
table that misses the metric's current value. -/
def enumMissMapping : EnumMapping :=
  ⟨["string_value"], [], "string_code", none, [("other", .fInt 1)]⟩

/-- The BigQuery state produced by plugin registration defaults: underscore
hyphen substitute, per-metric-name mode, nothing warned yet. -/
def bq0 : BQState := ⟨"_", "", []⟩

/-- A BigQuery state configured for compact single-table mode. -/
def bqCompact : BQState := ⟨"_", "ct", []⟩

/-- An insert-outcome oracle failing exactly for the table named cpu. -/
def outcomeCpuFails : String → Option String :=
  fun t => if t == "cpu" then some "boom" else none

/-- A serializer whose field serialization fails exactly for the metric named
bad. -/
def jsonBadFields : JsonM :=
  ⟨fun _ => .ok "tj", fun m => if m.name == "bad" then .error "boom" else .ok "fj"⟩

def jsonOk : JsonM := ⟨fun _ => .ok "tj", fun _ => .ok "fj"⟩

def putFails : List CompactRow → Option String := fun _ => some "puterr"

def putOk : List CompactRow → Option String := fun _ => none

def bqMetricsW : List Metric := [⟨"cpu", [], [], 0⟩, ⟨"mem", [], [], 0⟩]

def bqMetricsCompactW : List Metric := [⟨"bad", [], [], 0⟩, ⟨"okm", [], [], 0⟩]

/-! ## Helper lemmas -/

theorem getLast?_append_singleton {α : Type} (l : List α) (a : α) :
    (l ++ [a]).getLast? = some a := by
  induction l with
  | nil => rfl
  | cons h t ih =>
    cases t with
    | nil => rfl
    | cons h2 t2 => simpa using ih

theorem parseSeq_firstErr (p : Parser) (ls : List (Nat × List Char)) :
    parseSeq p ls =
      (match firstErr (lineResults p ls) with
       | some e => Except.error e
       | none => Except.ok (okList (lineResults p ls))) := by
  induction ls with
  | nil => rfl
  | cons hd tl ih =>
    obtain ⟨n, l⟩ := hd
    by_cases hl : l.isEmpty
    · simpa [parseSeq, lineResults, hl] using ih
    · cases hpl : parseLine p n l with
      | error e => simp [parseSeq, lineResults, hl, hpl, firstErr]
      | ok m =>
        simp only [parseSeq, lineResults, hl, if_neg, hpl, firstErr, okList]
        rw [ih]
        cases hfe : firstErr (lineResults p tl) <;> simp [okList]

/-! ## Claim theorems -/

/-- C3: whole-buffer parsing of cpu value=9223372036854775808i (one past the
signed 64-bit maximum) and of cpu value=18446744073709551616u (one past the
unsigned 64-bit maximum) each returns no metrics and a decode error at line 1,
column 11 with cause: cannot parse value for field key "value": line-protocol
value out of range; the in-range maxima 9223372036854775807i and
18446744073709551615u decode to those exact values with no wraparound. -/
theorem influx_overflow_claim :
    parseString testParser "cpu value=9223372036854775808i" =
      Except.error ⟨1, 11, "cannot parse value for field key \"value\": line-protocol value out of range"⟩
    ∧ parseString testParser "cpu value=18446744073709551616u" =
      Except.error ⟨1, 11, "cannot parse value for field key \"value\": line-protocol value out of range"⟩
    ∧ parseString testParser "cpu value=9223372036854775807i" =
      Except.ok [⟨"cpu", [], [("value", FieldValue.fInt 9223372036854775807)], 42000000000⟩]
    ∧ parseString testParser "cpu value=18446744073709551615u" =
      Except.ok [⟨"cpu", [], [("value", FieldValue.fUInt 18446744073709551615)], 42000000000⟩] :=
  ⟨rfl, rfl, rfl, rfl⟩

/-- C4: in measurement names, tag keys, tag values and field keys, a backslash
immediately before a space, comma or equals sign decodes to that character
alone, while a backslash before any other character passes through literally,
backslash included; exercised at each of the four positions: measurement
c\ pu decodes to "c pu", tag key ho\st stays ho\st, tag value two\ words
decodes to "two words", field key va\,lue decodes to "va,lue". -/
theorem influx_escape_claim :
    (∀ (stop : List Char) (c : Char) (rest : List Char),
      (∀ x ∈ stop, escapable x = true) →
      takeEsc stop ('\\' :: c :: rest) =
        if escapable c then (c :: (takeEsc stop rest).1, (takeEsc stop rest).2)
        else ('\\' :: (takeEsc stop (c :: rest)).1, (takeEsc stop (c :: rest)).2))
    ∧ parseString testParser "c\\ pu value=42" =
      Except.ok [⟨"c pu", [], [("value", FieldValue.fFloat "42")], 42000000000⟩]
    ∧ parseString testParser "cpu,ho\\st=localhost value=42" =
      Except.ok [⟨"cpu", [("ho\\st", "localhost")], [("value", FieldValue.fFloat "42")], 42000000000⟩]
    ∧ parseString testParser "cpu,host=two\\ words value=42" =
      Except.ok [⟨"cpu", [("host", "two words")], [("value", FieldValue.fFloat "42")], 42000000000⟩]
    ∧ parseString testParser "cpu va\\,lue=42" =
      Except.ok [⟨"cpu", [], [("va,lue", FieldValue.fFloat "42")], 42000000000⟩] := by
  refine ⟨?_, rfl, rfl, rfl, rfl⟩
  intro stop c rest hstop
  by_cases hc : escapable c
  · simp [takeEsc, takeEscGo, hc]
  · by_cases hb : c = '\\'
    · subst hb
      simp [takeEsc, takeEscGo, hc]
    · have hcs : c ∉ stop := fun hmem => hc (hstop c hmem)
      have hb2 : (c == '\\') = false := by simp [hb]
      simp [takeEsc, takeEscGo, hc, hb2, hcs]

/-- C4 witness: the escapable and pass-through cases of the escape rule at
concrete inputs (backslash-space decodes to a space; backslash before s keeps
both characters). -/
theorem influx_escape_claim_witness :
    (∀ x ∈ ([','] : List Char), escapable x = true)
    ∧ takeEsc [','] ('\\' :: ' ' :: ['p']) =
        (if escapable ' ' then (' ' :: (takeEsc [','] ['p']).1, (takeEsc [','] ['p']).2)
         else ('\\' :: (takeEsc [','] (' ' :: ['p'])).1, (takeEsc [','] (' ' :: ['p'])).2))
    ∧ takeEsc [','] ('\\' :: 's' :: ['t']) =
        (if escapable 's' then ('s' :: (takeEsc [','] ['t']).1, (takeEsc [','] ['t']).2)
         else ('\\' :: (takeEsc [','] ('s' :: ['t'])).1, (takeEsc [','] ('s' :: ['t'])).2)) :=
  ⟨by decide,
   influx_escape_claim.1 [','] ' ' ['p'] (by decide),
   influx_escape_claim.1 [','] 's' ['t'] (by decide)⟩

/-- C5: parser initialization succeeds for precisions of nanosecond (also the
unset default), microsecond, millisecond and second — parsed timestamp
integers being interpreted in that unit — and fails with an invalid-precision
error for any precision coarser than a second (minute, hour, day). -/
theorem influx_precision_claim :
    mkParser 0 42000000000 = Except.ok ⟨1, 42000000000⟩
    ∧ mkParser 1 0 = Except.ok ⟨1, 0⟩
    ∧ mkParser 1000 0 = Except.ok ⟨1000, 0⟩
    ∧ mkParser 1000000 0 = Except.ok ⟨1000000, 0⟩
    ∧ mkParser 1000000000 0 = Except.ok ⟨1000000000, 0⟩
    ∧ (∀ d : Nat, 1000000000 < d →
        mkParser d 0 = Except.error "invalid time precision")
    ∧ parseString ⟨1, 0⟩ "cpu value=1 1234567890123123123" =
      Except.ok [⟨"cpu", [], [("value", FieldValue.fFloat "1")], 1234567890123123123⟩]
    ∧ parseString ⟨1000, 0⟩ "cpu value=3 1234567890123123" =
      Except.ok [⟨"cpu", [], [("value", FieldValue.fFloat "3")], 1234567890123123000⟩]
    ∧ parseString ⟨1000000, 0⟩ "cpu value=4 1234567890123" =
      Except.ok [⟨"cpu", [], [("value", FieldValue.fFloat "4")], 1234567890123000000⟩]
    ∧ parseString ⟨1000000000, 0⟩ "cpu value=5 1234567890" =
      Except.ok [⟨"cpu", [], [("value", FieldValue.fFloat "5")], 1234567890000000000⟩] := by
  refine ⟨rfl, rfl, rfl, rfl, rfl, ?_, rfl, rfl, rfl, rfl⟩
  intro d hd
  have h : initPrecision d = Except.error "invalid time precision" := by
    simp only [initPrecision]
    rw [if_neg (by omega), if_neg (by omega), if_neg (by omega), if_neg (by omega)]
  simp [mkParser, h]

/-- C5 witness: a minute precision (60 seconds, coarser than a second) is
rejected at initialization. -/
theorem influx_precision_claim_witness :
    1000000000 < 60000000000
    ∧ mkParser 60000000000 0 = Except.error "invalid time precision" :=
  ⟨by norm_num, influx_precision_claim.2.2.2.2.2.1 60000000000 (by norm_num)⟩

/-- C6: for input with several malformed lines, whole-buffer parsing surfaces
exactly the first encountered parse error (its result is determined by the
first error among the per-line streaming results), while streaming parsing
returns one independent error per malformed line and keeps decoding the valid
lines after each malformed one until end of stream. -/
theorem influx_multierror_claim :
    (∀ (p : Parser) (ls : List (Nat × List Char)),
      parseSeq p ls =
        (match firstErr (lineResults p ls) with
         | some e => Except.error e
         | none => Except.ok (okList (lineResults p ls))))
    ∧ streamResults testParser
        "foo value=1asdf2.0\nfoo value=2.0\nfoo value=3asdf2.0\nfoo value=4.0" =
      [Except.error ⟨1, 11, "cannot parse value for field key \"value\": invalid float value syntax"⟩,
       Except.ok ⟨"foo", [], [("value", FieldValue.fFloat "2.0")], 42000000000⟩,
       Except.error ⟨3, 11, "cannot parse value for field key \"value\": invalid float value syntax"⟩,
       Except.ok ⟨"foo", [], [("value", FieldValue.fFloat "4.0")], 42000000000⟩]
    ∧ parseString testParser
        "foo value=1asdf2.0\nfoo value=2.0\nfoo value=3asdf2.0\nfoo value=4.0" =
      Except.error ⟨1, 11, "cannot parse value for field key \"value\": invalid float value syntax"⟩ :=
  ⟨parseSeq_firstErr, rfl, rfl⟩

/-- C1 counterexample: with a 1-microsecond precision, the timestamp 82912748
(nanoseconds) is accumulated as 82913000 — the nearest multiple of 1000,
rounded up — and not as the floor-division value 82912000 the claim requires
(this is the microsecond case of the repository's TestSetPrecision). -/
theorem accumulator_floor_counterexample :
    (addFields (setPrecision newAccumulator 1000) "acctest"
        [("value", FieldValue.fFloat "101")] [] 82912748).time = 82913000
    ∧ (82912748 / 1000) * 1000 = 82912000
    ∧ (addFields (setPrecision newAccumulator 1000) "acctest"
        [("value", FieldValue.fFloat "101")] [] 82912748).time ≠
      ((82912748 / 1000) * 1000 : Int) := by
  refine ⟨rfl, rfl, ?_⟩
  decide

/-- C1 amended: after SetPrecision with duration d, an accumulated metric's
timestamp equals the supplied timestamp rounded to the NEAREST multiple of d
relative to the zero instant, halfway values rounding up (Go time.Round) —
not floor division; when precision is unset the supplied timestamp is
preserved exactly at full nanosecond resolution. -/
theorem accumulator_precision_amended :
    ∀ (a : Accumulator) (name : String) (fields : List (String × FieldValue))
      (tags : List (String × String)) (d t : Nat), 0 < d →
    ((addFields (setPrecision a d) name fields tags t).time =
      if 2 * (t % d) < d then ((d * (t / d) : Nat) : Int)
      else ((d * (t / d) + d : Nat) : Int))
    ∧ (addFields newAccumulator name fields tags t).time = ((t : Nat) : Int) := by
  intro a name fields tags d t hd
  refine ⟨?_, rfl⟩
  have hfloor : t - t % d = d * (t / d) :=
    Nat.sub_eq_of_eq_add (Nat.div_add_mod t d).symm
  simp only [addFields, setPrecision, roundTimestamp]
  rw [if_neg (Nat.pos_iff_ne_zero.mp hd)]
  by_cases h2 : 2 * (t % d) < d
  · rw [if_pos h2, if_pos h2, hfloor]
  · rw [if_neg h2, if_neg h2, hfloor]

/-- C1 amended witness: the microsecond rounding of TestSetPrecision rounds
82912748 up to 82913000 (nearest multiple), and unset precision preserves the
timestamp exactly. -/
theorem accumulator_precision_amended_witness :
    0 < 1000
    ∧ ((addFields (setPrecision newAccumulator 1000) "acctest" [] [] 82912748).time =
        if 2 * (82912748 % 1000) < 1000 then ((1000 * (82912748 / 1000) : Nat) : Int)
        else ((1000 * (82912748 / 1000) + 1000 : Nat) : Int))
    ∧ (addFields newAccumulator "acctest" [] [] 82912748).time = ((82912748 : Nat) : Int) :=
  ⟨by norm_num,
   (accumulator_precision_amended newAccumulator "acctest" [] [] 1000 82912748 (by norm_num)).1,
   (accumulator_precision_amended newAccumulator "acctest" [] [] 1000 82912748 (by norm_num)).2⟩

/-- C2: calling AddTrackingMetricGroup with an empty metric group on a
tracking-enabled accumulator with room on its Delivered channel makes a
delivered notification available immediately (the channel is nonempty right
after the call, before any metric flows through the pipeline), and that
notification's tracking identifier equals the identifier the call returned. -/
theorem tracking_empty_group_claim :
    ∀ acc : TrackingAcc, acc.deliveredCh.length < acc.capacity →
    ((addTrackingMetricGroup acc []).2.deliveredCh =
      acc.deliveredCh ++ [⟨(addTrackingMetricGroup acc []).1, true⟩])
    ∧ (addTrackingMetricGroup acc []).2.deliveredCh ≠ []
    ∧ ((addTrackingMetricGroup acc []).2.deliveredCh.getLast? =
        some ⟨(addTrackingMetricGroup acc []).1, true⟩) := by
  intro acc h
  have h1 : (addTrackingMetricGroup acc []).2.deliveredCh =
      acc.deliveredCh ++ [⟨(addTrackingMetricGroup acc []).1, true⟩] := by
    simp [addTrackingMetricGroup, notifyDelivered, h]
  refine ⟨h1, ?_, ?_⟩
  · rw [h1]; simp
  · rw [h1]; exact getLast?_append_singleton _ _

/-- C2 witness: a fresh tracking accumulator of capacity 1 delivers the empty
group's notification immediately with the matching identifier. -/
theorem tracking_empty_group_claim_witness :
    (withTracking newAccumulator 1).deliveredCh.length < (withTracking newAccumulator 1).capacity
    ∧ ((addTrackingMetricGroup (withTracking newAccumulator 1) []).2.deliveredCh =
        (withTracking newAccumulator 1).deliveredCh ++
          [⟨(addTrackingMetricGroup (withTracking newAccumulator 1) []).1, true⟩])
    ∧ (addTrackingMetricGroup (withTracking newAccumulator 1) []).2.deliveredCh ≠ []
    ∧ ((addTrackingMetricGroup (withTracking newAccumulator 1) []).2.deliveredCh.getLast? =
        some ⟨(addTrackingMetricGroup (withTracking newAccumulator 1) []).1, true⟩) :=
  ⟨by decide,
   (tracking_empty_group_claim (withTracking newAccumulator 1) (by decide)).1,
   (tracking_empty_group_claim (withTracking newAccumulator 1) (by decide)).2.1,
   (tracking_empty_group_claim (withTracking newAccumulator 1) (by decide)).2.2⟩

/-- C7: for the Enum processor, when a targeted field's current value (as
text) is absent from the mapping's value table and no default is configured,
the metric is returned unchanged: the source field keeps its original value,
and a configured destination key different from the source key is not written
to the metric at all. -/
theorem enum_unmapped_no_default_claim :
    ∀ (mp : EnumMapping) (m : Metric) (key : String) (v : FieldValue),
    mp.fields = [key] → mp.tags = [] → mp.defaultVal = none → key ≠ "*" →
    getField m key = some v →
    lookupVM mp.valueMappings (fieldValueText v) = none →
    applyEnum [mp] m = [m]
    ∧ (∀ m', m' ∈ applyEnum [mp] m → getField m' key = some v)
    ∧ (∀ m', m' ∈ applyEnum [mp] m → getField m mp.dest = none →
        getField m' mp.dest = none) := by
  intro mp m key v hf ht hd hkne hv hlk
  have h1 : applyEnum [mp] m = [m] := by
    simp only [applyEnum, List.foldl_cons, List.foldl_nil, applyMapping]
    have htg : fieldTargets mp m = [key] := by
      simp only [fieldTargets, hf]
      rw [if_neg]
      simp only [List.contains_cons, List.contains_nil, Bool.or_false, beq_iff_eq]
      exact fun h => hkne h.symm
    have hmf : mapField mp m key = m := by
      simp [mapField, hv, hlk, hd]
    have htt : tagTargets mp m = [] := by
      simp [tagTargets, ht]
    rw [htg]
    simp only [List.foldl_cons, List.foldl_nil, hmf]
    rw [htt]
    simp
  refine ⟨h1, ?_, ?_⟩
  · intro m' hm'
    rw [h1] at hm'
    simp at hm'
    subst hm'
    exact hv
  · intro m' hm' hnone
    rw [h1] at hm'
    simp at hm'
    subst hm'
    exact hnone

/-- C7 witness: the test fixture metric with string_value = test, a mapping
whose value table lacks test, no default, and destination key string_code:
the metric is unchanged and string_code is never written. -/
theorem enum_unmapped_no_default_claim_witness :
    getField enumTestMetric "string_value" = some (FieldValue.fStr "test")
    ∧ lookupVM enumMissMapping.valueMappings (fieldValueText (FieldValue.fStr "test")) = none
    ∧ applyEnum [enumMissMapping] enumTestMetric = [enumTestMetric]
    ∧ (∀ m', m' ∈ applyEnum [enumMissMapping] enumTestMetric →
        getField enumTestMetric enumMissMapping.dest = none →
        getField m' enumMissMapping.dest = none) :=
  ⟨rfl, rfl,
   (enum_unmapped_no_default_claim enumMissMapping enumTestMetric "string_value"
     (FieldValue.fStr "test") rfl rfl rfl (by decide) rfl rfl).1,
   (enum_unmapped_no_default_claim enumMissMapping enumTestMetric "string_value"
     (FieldValue.fStr "test") rfl rfl rfl (by decide) rfl rfl).2.2⟩

theorem replaceHyphensL_no_hyphen (subL : List Char) (h : '-' ∉ subL) :
    ∀ l : List Char, '-' ∉ replaceHyphensL subL l := by
  intro l
  induction l with
  | nil => simp [replaceHyphensL]
  | cons c rest ih =>
    simp only [replaceHyphensL]
    by_cases hc : c = '-'
    · rw [if_pos hc]
      intro hmem
      rcases List.mem_append.mp hmem with h1 | h1
      · exact h h1
      · exact ih h1
    · rw [if_neg hc]
      intro hmem
      rcases List.mem_cons.mp hmem with h1 | h1
      · exact hc h1.symm
      · exact ih h1

theorem metricToTable_warned_mem (b : BQState) (n x : String) (h : x ∈ b.warned) :
    x ∈ (metricToTable b n).2.1.warned := by
  simp only [metricToTable]
  split_ifs <;> simp [List.mem_append, h]

theorem metricToTable_warned_self (b : BQState) (n : String) (h : '-' ∈ n.data) :
    n ∈ (metricToTable b n).2.1.warned := by
  simp only [metricToTable, if_pos h]
  split_ifs with h2
  · exact h2
  · simp

theorem warnCount_append (l1 l2 : List LogEntry) (name : String) :
    warnCount (l1 ++ l2) name = warnCount l1 name + warnCount l2 name := by
  simp [warnCount, List.filter_append]

theorem runTables_warnCount_zero :
    ∀ (names : List String) (b : BQState) (name : String), name ∈ b.warned →
    warnCount (runTables b names).2 name = 0 := by
  intro names
  induction names with
  | nil => intro b name _; rfl
  | cons n rest ih =>
    intro b name h
    simp only [runTables]
    rw [warnCount_append]
    rw [ih _ _ (metricToTable_warned_mem b n name h)]
    by_cases h1 : '-' ∈ n.data
    · by_cases h2 : n ∈ b.warned
      · simp [metricToTable, h1, h2, warnCount]
      · have hne : n ≠ name := fun he => h2 (he ▸ h)
        simp [metricToTable, h1, h2, warnCount, isWarnFor, hne]
    · simp [metricToTable, h1, warnCount]

theorem runTables_warnCount_one :
    ∀ (names : List String) (b : BQState) (name : String), '-' ∈ name.data →
    name ∉ b.warned → name ∈ names →
    warnCount (runTables b names).2 name = 1 := by
  intro names
  induction names with
  | nil => intro b name _ _ h; simp at h
  | cons n rest ih =>
    intro b name hh hw hmem
    simp only [runTables]
    rw [warnCount_append]
    by_cases he : n = name
    · subst he
      have hlog : (metricToTable b n).2.2 =
          [LogEntry.hyphenWarning n (replaceHyphens b.replaceHyphenTo n)] := by
        simp [metricToTable, hh, hw]
      have hcount : warnCount (metricToTable b n).2.2 n = 1 := by
        rw [hlog]; simp [warnCount, isWarnFor]
      rw [hcount, runTables_warnCount_zero rest _ _ (metricToTable_warned_self b n hh)]
    · have hlogz : warnCount (metricToTable b n).2.2 name = 0 := by
        by_cases h1 : '-' ∈ n.data
        · by_cases h2 : n ∈ b.warned
          · simp [metricToTable, h1, h2, warnCount]
          · simp [metricToTable, h1, h2, warnCount, isWarnFor, he]
        · simp [metricToTable, h1, warnCount]
      have hw2 : name ∉ (metricToTable b n).2.1.warned := by
        by_cases h1 : '-' ∈ n.data
        · by_cases h2 : n ∈ b.warned
          · simpa [metricToTable, h1, h2] using hw
          · simp only [metricToTable, if_pos h1, if_neg h2]
            intro hmem2
            rcases List.mem_append.mp hmem2 with h3 | h3
            · exact hw h3
            · simp at h3
              exact he h3.symm
        · simpa [metricToTable, h1] using hw
      have hmem2 : name ∈ rest := by
        rcases List.mem_cons.mp hmem with h3 | h3
        · exact absurd h3.symm he
        · exact h3
      rw [hlogz, ih _ _ hh hw2 hmem2]

/-- C8: in per-metric-name table mode, every hyphen in a hyphenated
measurement name is replaced with the configured substitute to form the table
name (so the table name is hyphen-free whenever the substitute is); the first
metric bearing a given hyphenated name logs exactly one warning recommending a
rename transform, and every subsequent metric with that same name produces no
further warning. -/
theorem bigquery_hyphen_table_claim :
    ∀ (b : BQState) (name : String) (names : List String),
    '-' ∈ name.data →
    ((metricToTable b name).1 = replaceHyphens b.replaceHyphenTo name)
    ∧ ('-' ∉ b.replaceHyphenTo.data → '-' ∉ ((metricToTable b name).1).data)
    ∧ (name ∉ b.warned → name ∈ names → warnCount (runTables b names).2 name = 1)
    ∧ (name ∈ b.warned → warnCount (runTables b names).2 name = 0) := by
  intro b name names hh
  have hfst : (metricToTable b name).1 = replaceHyphens b.replaceHyphenTo name := by
    simp only [metricToTable, if_pos hh]
    split_ifs <;> rfl
  refine ⟨hfst, ?_, ?_, ?_⟩
  · intro hsub
    rw [hfst]
    exact replaceHyphensL_no_hyphen _ hsub _
  · intro hw hmem
    exact runTables_warnCount_one names b name hh hw hmem
  · intro hw
    exact runTables_warnCount_zero names b name hw

/-- C8 witness: processing my-metric twice from the default state produces the
table name my_metric and exactly one warning. -/
theorem bigquery_hyphen_table_claim_witness :
    ('-' ∈ ("my-metric" : String).data)
    ∧ (metricToTable bq0 "my-metric").1 = replaceHyphens "_" "my-metric"
    ∧ warnCount (runTables bq0 ["my-metric", "my-metric"]).2 "my-metric" = 1 :=
  ⟨by decide,
   (bigquery_hyphen_table_claim bq0 "my-metric" ["my-metric", "my-metric"] (by decide)).1,
   (bigquery_hyphen_table_claim bq0 "my-metric" ["my-metric", "my-metric"]
     (by decide)).2.2.1 (by decide) (by decide)⟩

theorem metricToTable_fst (b : BQState) (n : String) :
    (metricToTable b n).1 = tableNameOf b.replaceHyphenTo n := by
  simp only [metricToTable, tableNameOf]
  split_ifs <;> rfl

theorem metricToTable_rh (b : BQState) (n : String) :
    (metricToTable b n).2.1.replaceHyphenTo = b.replaceHyphenTo := by
  simp only [metricToTable]
  split_ifs <;> rfl

theorem insertToTable_rh (outcome : String → Option String) (b : BQState) (n : String) :
    (insertToTable outcome b n).1.replaceHyphenTo = b.replaceHyphenTo := by
  simp only [insertToTable]
  cases houtcome : outcome (metricToTable b n).1 <;> simp [houtcome, metricToTable_rh]

theorem writePerName_insertError_mem (outcome : String → Option String) (g e : String) :
    ∀ (names : List String) (b : BQState), g ∈ names →
    outcome (tableNameOf b.replaceHyphenTo g) = some e →
    LogEntry.insertError g e ∈ (writePerName outcome b names).2 := by
  intro names
  induction names with
  | nil => intro b hg _; simp at hg
  | cons n rest ih =>
    intro b hg hout
    simp only [writePerName]
    rw [List.mem_append]
    by_cases he : g = n
    · subst he
      left
      simp only [insertToTable, metricToTable_fst, hout]
      simp
    · right
      have hg2 : g ∈ rest := by
        rcases List.mem_cons.mp hg with h | h
        · exact absurd h he
        · exact h
      have hout2 : outcome (tableNameOf (insertToTable outcome b n).1.replaceHyphenTo g) = some e := by
        rw [insertToTable_rh]
        exact hout
      exact ih _ hg2 hout2

/-- C9: in per-metric-name table mode, Write returns ok to its caller for
every batch and every insertion outcome — per-group insertion failures are
only logged (each failing group contributes its insert-error log entry,
independent of sibling groups) and are never propagated as an error from
Write. -/
theorem bigquery_pername_ok_claim :
    ∀ (b : BQState) (outcome : String → Option String) (jm : JsonM)
      (put : List CompactRow → Option String) (metrics : List Metric) (g e : String),
    b.compactTable = "" →
    (write b outcome jm put metrics).1 = Except.ok ()
    ∧ (g ∈ groupNames metrics → outcome (tableNameOf b.replaceHyphenTo g) = some e →
        LogEntry.insertError g e ∈ (write b outcome jm put metrics).2.2) := by
  intro b outcome jm put metrics g e hct
  have hne : ¬ (b.compactTable ≠ "") := by simp [hct]
  constructor
  · simp [write, hne]
  · intro hg hout
    simp only [write, if_neg hne]
    exact writePerName_insertError_mem outcome g e _ b hg hout

/-- C9 witness: a batch with groups cpu and mem where inserting to table cpu
fails with boom — Write still returns ok and logs the cpu insert error. -/
theorem bigquery_pername_ok_claim_witness :
    bq0.compactTable = ""
    ∧ ("cpu" ∈ groupNames bqMetricsW)
    ∧ outcomeCpuFails (tableNameOf bq0.replaceHyphenTo "cpu") = some "boom"
    ∧ (write bq0 outcomeCpuFails jsonOk putOk bqMetricsW).1 = Except.ok ()
    ∧ LogEntry.insertError "cpu" "boom" ∈
        (write bq0 outcomeCpuFails jsonOk putOk bqMetricsW).2.2 :=
  ⟨rfl, by decide, rfl,
   (bigquery_pername_ok_claim bq0 outcomeCpuFails jsonOk putOk bqMetricsW "cpu" "boom" rfl).1,
   (bigquery_pername_ok_claim bq0 outcomeCpuFails jsonOk putOk bqMetricsW "cpu" "boom" rfl).2
     (by decide) rfl⟩

/-- C10: in compact single-table mode, Write returns exactly what the
underlying batch insertion returns (an insertion error propagates to the
caller; none means ok), while a metric whose tag or field serialization fails
is merely excluded from the submitted rows — the rows are precisely the
successful serializations, in order — without failing Write by itself. -/
theorem bigquery_compact_claim :
    ∀ (b : BQState) (outcome : String → Option String) (jm : JsonM)
      (put : List CompactRow → Option String) (metrics : List Metric),
    b.compactTable ≠ "" →
    ((write b outcome jm put metrics).1 =
      (match put ((compactRows jm metrics).1) with
       | some e => Except.error e
       | none => Except.ok ()))
    ∧ (compactRows jm metrics).1 =
        metrics.filterMap (fun m => (newCompactValuesSaver jm m).toOption) := by
  intro b outcome jm put metrics hct
  constructor
  · simp only [write, if_pos hct, writeCompact]
    cases hput : put (compactRows jm metrics).1 <;> simp [hput]
  · induction metrics with
    | nil => rfl
    | cons m rest ih =>
      simp only [compactRows, List.filterMap_cons]
      cases hs : newCompactValuesSaver jm m <;> simp [hs, Except.toOption, ih]

/-- C10 witness: compact mode with a metric whose field serialization fails —
the failing metric is excluded from the submitted rows, and the batch-insert
error puterr propagates out of Write. -/
theorem bigquery_compact_claim_witness :
    bqCompact.compactTable ≠ ""
    ∧ ((write bqCompact outcomeCpuFails jsonBadFields putFails bqMetricsCompactW).1 =
        (match putFails ((compactRows jsonBadFields bqMetricsCompactW).1) with
         | some e => Except.error e
         | none => Except.ok ()))
    ∧ (compactRows jsonBadFields bqMetricsCompactW).1 =
        bqMetricsCompactW.filterMap (fun m => (newCompactValuesSaver jsonBadFields m).toOption) :=
  ⟨by decide,
   (bigquery_compact_claim bqCompact outcomeCpuFails jsonBadFields putFails bqMetricsCompactW
     (by decide)).1,
   (bigquery_compact_claim bqCompact outcomeCpuFails jsonBadFields putFails bqMetricsCompactW
     (by decide)).2⟩
